import Mathlib

/-
Verification of the build-runner daemon (Rust sources: src/client.rs,
src/server.rs, src/protocol.rs, src/main.rs) against its specification.

The development shallowly embeds the code:
  * `TruncatingBuffer` and its `new` / `push` / `finish` operations embed the
    client-side truncation buffer of src/client.rs (lines 15-91).  Printing to
    stdout/stderr is made explicit as a trace of `Emit` events.
  * The client's response-processing loop of `run_build` (src/client.rs,
    lines 108-146) is embedded as `clientLoop` / `runBuildClient`, returning
    the process exit code and the emitted output trace.
  * The server's `handle_build` (src/server.rs lines 113-194) is embedded with
    the OS process treated as an ambient capability: a `ProcessRun` record
    supplies the spawned process's stdout lines, stderr lines and exit code,
    plus a `schedule` resolving the nondeterministic `tokio::select!` choices.
  * The server's shared state and per-connection dispatch (src/server.rs,
    lines 11-111) are embedded as `ServerState`, `serverStartup` and
    `handle_connection`.
  * The wire protocol (src/protocol.rs) is embedded as `Request` / `Response`;
    the serde externally-tagged JSON encoding is modelled at the JSON-value
    level by `encodeResponse` / `decodeResponse`.
-/

/-- Embeds `struct OutputLine` (src/client.rs lines 9-12). -/
structure OutputLine where
  content : String
  is_stderr : Bool
deriving DecidableEq, Repr

/-- One observable print action of the client: `println!` to stdout or
`eprintln!` to stderr, with the printed text. -/
inductive Emit where
  | out (s : String)
  | err (s : String)
deriving DecidableEq, Repr

/-- Embeds `TruncatingBuffer::print_line` (src/client.rs lines 84-90):
a line goes to stderr when tagged `is_stderr`, else to stdout. -/
def printLine (l : OutputLine) : Emit :=
  if l.is_stderr then Emit.err l.content else Emit.out l.content

/-- The three `eprintln!` calls forming the truncation marker in
`TruncatingBuffer::finish` (src/client.rs lines 68-70). -/
def markerEmits (skipped : Nat) : List Emit :=
  [Emit.err "", Emit.err ("... [" ++ toString skipped ++ " lines truncated] ..."),
    Emit.err ""]

/-- Embeds `struct TruncatingBuffer` (src/client.rs lines 15-22).  The Rust
`VecDeque` tail is a list whose first element is the deque's front (oldest). -/
structure TruncatingBuffer where
  max_lines : Nat
  head : List OutputLine
  tail : List OutputLine
  total_count : Nat
  head_limit : Nat
  tail_limit : Nat
deriving DecidableEq, Repr

/-- Embeds `TruncatingBuffer::new` (src/client.rs lines 25-36). -/
def TruncatingBuffer.new (max_lines : Nat) : TruncatingBuffer :=
  { max_lines := max_lines
    head := []
    tail := []
    total_count := 0
    head_limit := max_lines / 2
    tail_limit := max_lines - max_lines / 2 }

/-- Embeds `TruncatingBuffer::push` (src/client.rs lines 38-58).  Returns the
updated buffer together with the print events the call performs.
`total_count` is incremented on every call; when `max_lines = 0` the line is
printed immediately and nothing is stored; while the head holds fewer than
`head_limit` lines the line is printed and appended to the head; otherwise it
is appended to the tail ring, evicting the oldest buffered line
(`pop_front`, i.e. `drop 1`) when the ring already holds `tail_limit`. -/
def TruncatingBuffer.push (b : TruncatingBuffer) (line : OutputLine) :
    TruncatingBuffer × List Emit :=
  if b.max_lines = 0 then
    ({ b with total_count := b.total_count + 1 }, [printLine line])
  else if b.head.length < b.head_limit then
    ({ b with total_count := b.total_count + 1, head := b.head ++ [line] },
      [printLine line])
  else if b.tail_limit ≤ b.tail.length then
    ({ b with total_count := b.total_count + 1, tail := b.tail.drop 1 ++ [line] },
      [])
  else
    ({ b with total_count := b.total_count + 1, tail := b.tail ++ [line] }, [])

/-- Embeds `TruncatingBuffer::finish` (src/client.rs lines 60-82), returning
the print events it performs (`saturating_sub` is Nat subtraction). -/
def TruncatingBuffer.finish (b : TruncatingBuffer) : List Emit :=
  if b.max_lines = 0 then []
  else
    let skipped := b.total_count - (b.head.length + b.tail.length)
    if 0 < skipped then
      markerEmits skipped ++ b.tail.map printLine
    else if b.head.length < b.total_count then
      b.tail.map printLine
    else []

/-- Pushing a whole arrival-ordered sequence of lines, accumulating the print
events in order. -/
def TruncatingBuffer.pushAll : TruncatingBuffer → List OutputLine →
    TruncatingBuffer × List Emit
  | b, [] => (b, [])
  | b, l :: ls =>
    (((b.push l).1.pushAll ls).1, (b.push l).2 ++ ((b.push l).1.pushAll ls).2)

/-- The whole lifecycle on one build's output: create the buffer with capacity
`max_lines`, push every line in arrival order, then finish.  The result is the
complete printed trace. -/
def runBuffer (max_lines : Nat) (lines : List OutputLine) : List Emit :=
  (((TruncatingBuffer.new max_lines).pushAll lines).2) ++
    ((TruncatingBuffer.new max_lines).pushAll lines).1.finish

/-- Sample lines used in concrete evaluations. -/
def lineA : OutputLine := { content := "a", is_stderr := false }

def lineB : OutputLine := { content := "b", is_stderr := false }

/-- Embeds `enum Response` (src/protocol.rs lines 21-43); Rust `i32` exit
codes are modelled as `Int` (no arithmetic is performed on them). -/
inductive Response where
  | Output (line : String) (is_stderr : Bool)
  | BuildComplete (exit_code : Int)
  | Status (initialized : Bool) (init_script : Option String)
  | Stopping
  | Error (message : String)
deriving DecidableEq, Repr

/-- Embeds `enum Request` (src/protocol.rs lines 5-18); `PathBuf` is modelled
as a string. -/
inductive Request where
  | Build (dir : String) (command : String)
  | Status
  | Stop
deriving DecidableEq, Repr

/-- The responses on which the client's `run_build` read loop terminates:
`BuildComplete` records the code and breaks, `Error` exits immediately. -/
def Response.isTerminal : Response → Bool
  | Response.BuildComplete _ => true
  | Response.Error _ => true
  | _ => false

/-- The tail of `run_build` after its read loop (src/client.rs lines 139-145):
finish the buffer, print the failure notice when the exit code is nonzero, and
exit the process with that exact code. -/
def clientFinish (code : Int) (b : TruncatingBuffer) (acc : List Emit) :
    Int × List Emit :=
  (code, acc ++ b.finish ++
    (if code ≠ 0 then
      [Emit.err ("\nBuild failed with exit code: " ++ toString code)]
    else []))

/-- Embeds the response-processing loop of `run_build` (src/client.rs lines
108-146).  The argument list is the sequence of framed responses the client
reads before end-of-stream: `Output` feeds the buffer, the first
`BuildComplete` breaks with its code, `Error` prints the message and exits
with code 1 immediately (no buffer finish), any other response is ignored,
and end-of-stream breaks with the initial exit code 0. -/
def clientLoop (b : TruncatingBuffer) (acc : List Emit) :
    List Response → Int × List Emit
  | [] => clientFinish 0 b acc
  | Response.Output line e :: rest =>
    clientLoop (b.push { content := line, is_stderr := e }).1
      (acc ++ (b.push { content := line, is_stderr := e }).2) rest
  | Response.BuildComplete code :: _ => clientFinish code b acc
  | Response.Error msg :: _ => (1, acc ++ [Emit.err ("Error: " ++ msg)])
  | _ :: rest => clientLoop b acc rest

/-- Embeds `run_build`'s observable outcome (src/client.rs lines 93-146) for a
given received response sequence: the process exit code and the printed
trace. -/
def runBuildClient (max_lines : Nat) (rs : List Response) : Int × List Emit :=
  clientLoop (TruncatingBuffer.new max_lines) [] rs

/-- The OutputLine values carried by the `Output` messages of a response
list, in order. -/
def outputLines : List Response → List OutputLine
  | [] => []
  | Response.Output line e :: rest =>
    { content := line, is_stderr := e } :: outputLines rest
  | _ :: rest => outputLines rest

/-- Helper for the embedding of Rust `str::split_whitespace` (used by
`handle_build`, src/server.rs line 119): accumulates the current word in
reverse and emits maximal non-whitespace runs in order, discarding empties.
Rust `char::is_whitespace` is embedded as `Char.isWhitespace`. -/
def splitWsChars : List Char → List Char → List (List Char)
  | [], cur => if cur = [] then [] else [cur.reverse]
  | c :: cs, cur =>
    if c.isWhitespace then
      if cur = [] then splitWsChars cs []
      else cur.reverse :: splitWsChars cs []
    else splitWsChars cs (c :: cur)

/-- Embeds `command.split_whitespace().collect::<Vec<&str>>()`. -/
def splitWs (s : String) : List String :=
  (splitWsChars s.toList []).map (fun cs => String.mk cs)

/-- The behaviour of the spawned build process and of the runtime scheduler,
treated as an ambient capability: the full line sequences the process writes
to stdout and to stderr, its final exit code (with
`status.code().unwrap_or(-1)` already applied), and the `schedule` resolving
each `tokio::select!` choice (`true` = the stdout branch fires, `false` = the
stderr branch fires). -/
structure ProcessRun where
  stdoutLines : List String
  stderrLines : List String
  exit_code : Int
  schedule : List Bool
deriving DecidableEq, Repr

/-- Embeds the streaming `loop { tokio::select! { ... } }` of `handle_build`
(src/server.rs lines 158-184).  The stdout branch forwards a line or, at
end-of-stream (`Ok(None)`), breaks the loop; the stderr branch forwards a line
or, at end-of-stream, does nothing and the loop continues.  Returns the
forwarded responses and whether the break was reached within the schedule. -/
def streamLoop : List Bool → List String → List String → List Response × Bool
  | [], _, _ => ([], false)
  | pick :: sched, outs, errs =>
    if pick then
      match outs with
      | [] => ([], true)
      | l :: rest =>
        (Response.Output l false :: (streamLoop sched rest errs).1,
          (streamLoop sched rest errs).2)
    else
      match errs with
      | [] => streamLoop sched outs []
      | l :: rest =>
        (Response.Output l true :: (streamLoop sched outs rest).1,
          (streamLoop sched outs rest).2)

/-- Embeds `handle_build` (src/server.rs lines 113-194) as the list of
responses written to the client plus whether a process was spawned.  A command
whose `split_whitespace` is empty yields the single `Error` and returns before
spawning; otherwise the streaming loop runs and, once it breaks, the process
exit code is reported in a single `BuildComplete`. -/
def handle_build (dir command : String) (pr : ProcessRun) :
    List Response × Bool :=
  if splitWs command = [] then
    ([Response.Error "Empty command"], false)
  else
    ((streamLoop pr.schedule pr.stdoutLines pr.stderrLines).1 ++
      (if (streamLoop pr.schedule pr.stdoutLines pr.stderrLines).2 then
        [Response.BuildComplete pr.exit_code]
      else []), true)

/-- Embeds the server-wide shared state of `run` (src/server.rs lines 11-31):
the `initialized` and `running` atomic flags.  The configured init-script path
is immutable and passed separately. -/
structure ServerState where
  initialized : Bool
  running : Bool
deriving DecidableEq, Repr

/-- The flags as created in `run`: `AtomicBool::new(false)` for `initialized`
and `AtomicBool::new(true)` for `running`. -/
def initialServerState : ServerState :=
  { initialized := false, running := true }

/-- Embeds the startup phase of `run` (src/server.rs lines 11-31): when an
init script is configured it must succeed (otherwise `run` propagates the
error and no listener is opened); only afterwards is `initialized` stored
`true`.  Returns the state in which the accept loop starts, or `none` when
startup aborts. -/
def serverStartup (init_script : Option String) (scriptSucceeds : Bool) :
    Option ServerState :=
  match init_script with
  | some _ =>
    if scriptSucceeds then some { initialServerState with initialized := true }
    else none
  | none => some { initialServerState with initialized := true }

/-- Embeds `handle_connection` (src/server.rs lines 78-111): one request is
read and dispatched; `Build` delegates to `handle_build`, `Status` snapshots
the flags and the configured path, `Stop` acknowledges and clears `running`.
Returns the successor state and the responses written. -/
def handle_connection (st : ServerState) (init_script : Option String)
    (req : Request) (pr : ProcessRun) : ServerState × List Response :=
  match req with
  | Request.Build dir command => (st, (handle_build dir command pr).1)
  | Request.Status => (st, [Response.Status st.initialized init_script])
  | Request.Stop => ({ st with running := false }, [Response.Stopping])

/-- Modelled from the spec: the message codec is an external collaborator (a
line-delimited structured-data serializer — serde_json with serde's derived
externally-tagged enum representation, declared on `Response` in
src/protocol.rs lines 21-43).  The wire form is modelled at the JSON-value
level: newtype-free enum variants become a one-field object keyed by the
variant name, unit variants become the bare variant-name string. -/
inductive Json where
  | null
  | bool (b : Bool)
  | num (n : Int)
  | str (s : String)
  | obj (fields : List (String × Json))

/-- Field lookup in a JSON object, by name (serde accepts fields in any
order; encoding always produces them in declaration order). -/
def Json.lookupField : List (String × Json) → String → Option Json
  | [], _ => none
  | (k, v) :: rest, name => if k = name then some v else Json.lookupField rest name

def Json.asStr : Json → Option String
  | Json.str s => some s
  | _ => none

def Json.asBool : Json → Option Bool
  | Json.bool b => some b
  | _ => none

def Json.asInt : Json → Option Int
  | Json.num n => some n
  | _ => none

/-- serde encodes `Option<String>` as `null` / the string itself. -/
def Json.asOptStr : Json → Option (Option String)
  | Json.null => some none
  | Json.str s => some (some s)
  | _ => none

/-- Modelled from the spec: serde's externally-tagged encoding of `Response`
(src/protocol.rs lines 21-43). -/
def encodeResponse : Response → Json
  | Response.Output line e =>
    Json.obj [("Output",
      Json.obj [("line", Json.str line), ("is_stderr", Json.bool e)])]
  | Response.BuildComplete code =>
    Json.obj [("BuildComplete", Json.obj [("exit_code", Json.num code)])]
  | Response.Status ini script =>
    Json.obj [("Status", Json.obj [("initialized", Json.bool ini),
      ("init_script",
        match script with
        | none => Json.null
        | some s => Json.str s)])]
  | Response.Stopping => Json.str "Stopping"
  | Response.Error msg =>
    Json.obj [("Error", Json.obj [("message", Json.str msg)])]

/-- Modelled from the spec: serde's externally-tagged decoding of `Response`:
a bare string names a unit variant, a one-entry object names a struct variant
whose fields are looked up by name. -/
def decodeResponse : Json → Option Response
  | Json.str s => if s = "Stopping" then some Response.Stopping else none
  | Json.obj [("Output", Json.obj fields)] => do
    let lj ← Json.lookupField fields "line"
    let l ← lj.asStr
    let ej ← Json.lookupField fields "is_stderr"
    let e ← ej.asBool
    some (Response.Output l e)
  | Json.obj [("BuildComplete", Json.obj fields)] => do
    let cj ← Json.lookupField fields "exit_code"
    let c ← cj.asInt
    some (Response.BuildComplete c)
  | Json.obj [("Status", Json.obj fields)] => do
    let ij ← Json.lookupField fields "initialized"
    let i ← ij.asBool
    let sj ← Json.lookupField fields "init_script"
    let s ← sj.asOptStr
    some (Response.Status i s)
  | Json.obj [("Error", Json.obj fields)] => do
    let mj ← Json.lookupField fields "message"
    let m ← mj.asStr
    some (Response.Error m)
  | _ => none

/-- The process run exhibiting the dropped-stderr defect: stdout is already at
end-of-stream, stderr still holds one line, and the select first polls the
stdout branch. -/
def c2Run : ProcessRun :=
  { stdoutLines := []
    stderrLines := ["late stderr line"]
    exit_code := 0
    schedule := [true] }

/-- A process run that produces no output, used for concrete instantiation. -/
def prNoOutput : ProcessRun :=
  { stdoutLines := [], stderrLines := [], exit_code := 0, schedule := [true] }

/- ------------------------------------------------------------------ -/
/- Theorems                                                           -/
/- ------------------------------------------------------------------ -/

theorem pushAll_append_single (b : TruncatingBuffer) (ls : List OutputLine)
    (x : OutputLine) :
    b.pushAll (ls ++ [x]) =
      (((b.pushAll ls).1.push x).1,
        (b.pushAll ls).2 ++ ((b.pushAll ls).1.push x).2) := by
  induction ls generalizing b with
  | nil => simp [TruncatingBuffer.pushAll]
  | cons l ls ih => simp [TruncatingBuffer.pushAll, ih]

/-- One step of the buffer invariant: pushing line `x` after the arrival-ordered
sequence `ls` has already been pushed into a fresh buffer of capacity `N > 0`
keeps head = first `N/2` lines, tail = most recent up-to-`N - N/2` of the rest. -/
theorem push_spec (N : Nat) (hN : 0 < N) (ls : List OutputLine) (x : OutputLine)
    (b : TruncatingBuffer)
    (hm : b.max_lines = N) (hh : b.head_limit = N / 2)
    (ht : b.tail_limit = N - N / 2)
    (hc : b.total_count = ls.length)
    (hhead : b.head = ls.take (N / 2))
    (htail : b.tail = ls.drop (max (N / 2) (ls.length - (N - N / 2)))) :
    (b.push x).1.max_lines = N ∧
    (b.push x).1.head_limit = N / 2 ∧
    (b.push x).1.tail_limit = N - N / 2 ∧
    (b.push x).1.total_count = ls.length + 1 ∧
    (b.push x).1.head = (ls ++ [x]).take (N / 2) ∧
    (b.push x).1.tail =
      (ls ++ [x]).drop (max (N / 2) ((ls.length + 1) - (N - N / 2))) ∧
    (b.push x).2 = (if ls.length < N / 2 then [printLine x] else []) := by
  have hne : ¬ b.max_lines = 0 := by omega
  have htlen : b.tail.length = ls.length - max (N / 2) (ls.length - (N - N / 2)) := by
    rw [htail, List.length_drop]
  unfold TruncatingBuffer.push
  rw [if_neg hne]
  by_cases hlt : b.head.length < b.head_limit
  · rw [if_pos hlt]
    have hL : ls.length < N / 2 := by
      rw [hhead, hh, List.length_take] at hlt; omega
    refine ⟨hm, hh, ht, by simpa using hc, ?_, ?_, by simp [hL]⟩
    · have h1 : ls.take (N / 2) = ls := List.take_of_length_le (by omega)
      have h2 : (ls ++ [x]).take (N / 2) = ls ++ [x] :=
        List.take_of_length_le (by simp; omega)
      simp [hhead, h1, h2]
    · have h1 : b.tail = [] := by
        rw [htail]; exact List.drop_eq_nil_of_le (by omega)
      have h2 : (ls ++ [x]).drop (max (N / 2) ((ls.length + 1) - (N - N / 2))) = [] :=
        List.drop_eq_nil_of_le (by simp; omega)
      simp [h1, h2]
  · rw [if_neg hlt]
    have hL : N / 2 ≤ ls.length := by
      rw [hhead, hh, List.length_take] at hlt; omega
    have hif : ¬ ls.length < N / 2 := by omega
    have ht1 : 1 ≤ N - N / 2 := by omega
    by_cases hfull : b.tail_limit ≤ b.tail.length
    · rw [if_pos hfull]
      have hLN : N ≤ ls.length := by
        rw [ht, htlen] at hfull; omega
      have hmax1 : max (N / 2) (ls.length - (N - N / 2)) =
          ls.length - (N - N / 2) := by omega
      have hmax2 : max (N / 2) ((ls.length + 1) - (N - N / 2)) =
          (ls.length + 1) - (N - N / 2) := by omega
      refine ⟨hm, hh, ht, by simpa using hc, ?_, ?_, by simp [hif]⟩
      · have h2 : (ls ++ [x]).take (N / 2) = ls.take (N / 2) :=
          List.take_append_of_le_length hL
        simp [hhead, h2]
      · have hdd : (ls.drop (ls.length - (N - N / 2))).drop 1 =
            ls.drop ((ls.length + 1) - (N - N / 2)) := by
          rw [List.drop_drop]
          congr 1
          omega
        have h2 : (ls ++ [x]).drop ((ls.length + 1) - (N - N / 2)) =
            ls.drop ((ls.length + 1) - (N - N / 2)) ++ [x] :=
          List.drop_append_of_le_length (by omega)
        simp only [htail, hmax1, hmax2, hdd, h2]
    · rw [if_neg hfull]
      have hLN : ls.length < N := by
        rw [ht, htlen] at hfull; omega
      have hmax1 : max (N / 2) (ls.length - (N - N / 2)) = N / 2 := by omega
      have hmax2 : max (N / 2) ((ls.length + 1) - (N - N / 2)) = N / 2 := by omega
      refine ⟨hm, hh, ht, by simpa using hc, ?_, ?_, by simp [hif]⟩
      · have h2 : (ls ++ [x]).take (N / 2) = ls.take (N / 2) :=
          List.take_append_of_le_length hL
        simp [hhead, h2]
      · have h2 : (ls ++ [x]).drop (N / 2) = ls.drop (N / 2) ++ [x] :=
          List.drop_append_of_le_length hL
        simp only [htail, hmax1, hmax2, h2]

/-- Full-run characterization of the buffer state and the events printed
during the pushes, for capacity `N > 0`. -/
theorem pushAll_new_spec (N : Nat) (hN : 0 < N) (ls : List OutputLine) :
    ((TruncatingBuffer.new N).pushAll ls).1.max_lines = N ∧
    ((TruncatingBuffer.new N).pushAll ls).1.head_limit = N / 2 ∧
    ((TruncatingBuffer.new N).pushAll ls).1.tail_limit = N - N / 2 ∧
    ((TruncatingBuffer.new N).pushAll ls).1.total_count = ls.length ∧
    ((TruncatingBuffer.new N).pushAll ls).1.head = ls.take (N / 2) ∧
    ((TruncatingBuffer.new N).pushAll ls).1.tail =
      ls.drop (max (N / 2) (ls.length - (N - N / 2))) ∧
    ((TruncatingBuffer.new N).pushAll ls).2 = (ls.take (N / 2)).map printLine := by
  induction ls using List.reverseRecOn with
  | nil => simp [TruncatingBuffer.pushAll, TruncatingBuffer.new]
  | append_singleton ls x ih =>
    obtain ⟨hm, hh, ht, hc, hhead, htail, hemit⟩ := ih
    have hstep := push_spec N hN ls x _ hm hh ht hc hhead htail
    obtain ⟨sm, sh, st, sc, shead, stail, semit⟩ := hstep
    rw [pushAll_append_single]
    refine ⟨sm, sh, st, by simpa using sc, shead, by simpa using stail, ?_⟩
    dsimp only
    rw [hemit, semit]
    by_cases hL : ls.length < N / 2
    · have h1 : ls.take (N / 2) = ls := List.take_of_length_le (by omega)
      have h2 : (ls ++ [x]).take (N / 2) = ls ++ [x] :=
        List.take_of_length_le (by simp; omega)
      simp [hL, h1, h2]
    · have h2 : (ls ++ [x]).take (N / 2) = ls.take (N / 2) :=
        List.take_append_of_le_length (by omega)
      simp [hL, h2]

/-- Processing any line sequence with `max_lines = 0` prints each line
immediately, stores nothing in head or tail, and `finish` prints nothing. -/
theorem pushAll_zero (ls : List OutputLine) :
    ∀ b : TruncatingBuffer, b.max_lines = 0 →
      (b.pushAll ls).1.max_lines = 0 ∧
      (b.pushAll ls).1.head = b.head ∧
      (b.pushAll ls).1.tail = b.tail ∧
      (b.pushAll ls).2 = ls.map printLine := by
  induction ls with
  | nil => intro b hm; simp [TruncatingBuffer.pushAll, hm]
  | cons l ls ih =>
    intro b hm
    have hp : b.push l = ({ b with total_count := b.total_count + 1 }, [printLine l]) := by
      unfold TruncatingBuffer.push
      rw [if_pos hm]
    obtain ⟨h0, h1, h2, h3⟩ := ih { b with total_count := b.total_count + 1 } hm
    simp [TruncatingBuffer.pushAll, hp, h0, h1, h2, h3]

/-- C10: for every max_lines N > 0, after any sequence of k pushes into a
TruncatingBuffer, total_count = k, head contains exactly the first
min(k, ⌊N/2⌋) lines pushed in order, tail contains exactly the most recent
min(max(k - ⌊N/2⌋, 0), N - ⌊N/2⌋) of the remaining lines in original order,
head never exceeds ⌊N/2⌋ entries and tail never exceeds N - ⌊N/2⌋ entries. -/
theorem C10_buffer_invariant (N : Nat) (hN : 0 < N) (ls : List OutputLine) :
    ((TruncatingBuffer.new N).pushAll ls).1.total_count = ls.length ∧
    ((TruncatingBuffer.new N).pushAll ls).1.head =
      ls.take (min ls.length (N / 2)) ∧
    ((TruncatingBuffer.new N).pushAll ls).1.tail =
      ls.drop (ls.length - min (ls.length - N / 2) (N - N / 2)) ∧
    ((TruncatingBuffer.new N).pushAll ls).1.head.length ≤ N / 2 ∧
    ((TruncatingBuffer.new N).pushAll ls).1.tail.length ≤ N - N / 2 := by
  obtain ⟨hm, hh, ht, hc, hhead, htail, hemit⟩ := pushAll_new_spec N hN ls
  refine ⟨hc, ?_, ?_, ?_, ?_⟩
  · rw [hhead, List.take_eq_take]
    omega
  · rw [htail]
    by_cases hge : N / 2 ≤ ls.length
    · congr 1
      omega
    · rw [List.drop_eq_nil_of_le (by omega), List.drop_eq_nil_of_le (by omega)]
  · rw [hhead, List.length_take]
    omega
  · rw [htail, List.length_drop]
    omega

/-- C10 witness: concrete instantiation at N = 3 with 5 pushed lines. -/
theorem C10_buffer_invariant_witness :
    ((TruncatingBuffer.new 3).pushAll [lineA, lineB, lineA, lineB, lineA]).1.total_count =
      ([lineA, lineB, lineA, lineB, lineA] : List OutputLine).length ∧
    ((TruncatingBuffer.new 3).pushAll [lineA, lineB, lineA, lineB, lineA]).1.head =
      ([lineA, lineB, lineA, lineB, lineA] : List OutputLine).take
        (min ([lineA, lineB, lineA, lineB, lineA] : List OutputLine).length (3 / 2)) ∧
    ((TruncatingBuffer.new 3).pushAll [lineA, lineB, lineA, lineB, lineA]).1.tail =
      ([lineA, lineB, lineA, lineB, lineA] : List OutputLine).drop
        (([lineA, lineB, lineA, lineB, lineA] : List OutputLine).length -
          min (([lineA, lineB, lineA, lineB, lineA] : List OutputLine).length - 3 / 2)
            (3 - 3 / 2)) ∧
    ((TruncatingBuffer.new 3).pushAll [lineA, lineB, lineA, lineB, lineA]).1.head.length ≤
      3 / 2 ∧
    ((TruncatingBuffer.new 3).pushAll [lineA, lineB, lineA, lineB, lineA]).1.tail.length ≤
      3 - 3 / 2 :=
  C10_buffer_invariant 3 (by decide) [lineA, lineB, lineA, lineB, lineA]

/-- C5: for every max_lines N > 0 and every arrival-ordered sequence of L ≤ N
lines fed to a TruncatingBuffer (push each, then finish), every line is
printed exactly once in arrival order to its tagged destination and no
truncation marker is printed: the full printed trace is exactly the lines'
prints. -/
theorem C5_within_capacity (N : Nat) (ls : List OutputLine) (hN : 0 < N)
    (hL : ls.length ≤ N) :
    runBuffer N ls = ls.map printLine := by
  obtain ⟨hm, hh, ht, hc, hhead, htail, hemit⟩ := pushAll_new_spec N hN ls
  have hmax : max (N / 2) (ls.length - (N - N / 2)) = N / 2 := by omega
  unfold runBuffer
  rw [hemit]
  unfold TruncatingBuffer.finish
  rw [hm, hc, hhead, htail, hmax, if_neg (by omega)]
  simp only [List.length_take, List.length_drop]
  by_cases hsmall : ls.length ≤ N / 2
  · have h0 : ls.length - (min (N / 2) ls.length + (ls.length - N / 2)) = 0 := by
      omega
    have h1 : ls.take (N / 2) = ls := List.take_of_length_le hsmall
    simp only [h0, h1]
    rw [if_neg (by omega), if_neg (by omega)]
    simp
  · have h0 : ls.length - (min (N / 2) ls.length + (ls.length - N / 2)) = 0 := by
      omega
    simp only [h0]
    rw [if_neg (by omega), if_pos (by omega)]
    rw [← List.map_append, List.take_append_drop]

/-- C5 witness: N = 3 with 2 lines, within capacity. -/
theorem C5_within_capacity_witness :
    runBuffer 3 [lineA, lineB] = ([lineA, lineB] : List OutputLine).map printLine :=
  C5_within_capacity 3 [lineA, lineB] (by decide) (by decide)

/-- C6: for max_lines N = 0 and any line sequence, each line is printed
immediately in arrival order at push time, nothing is buffered (head and tail
stay empty), and finish prints nothing, so no truncation marker ever appears:
the full trace is exactly the lines' prints and finish contributes nothing. -/
theorem C6_truncation_disabled (ls : List OutputLine) :
    runBuffer 0 ls = ls.map printLine ∧
    ((TruncatingBuffer.new 0).pushAll ls).1.head = [] ∧
    ((TruncatingBuffer.new 0).pushAll ls).1.tail = [] ∧
    ((TruncatingBuffer.new 0).pushAll ls).1.finish = [] := by
  obtain ⟨h0, h1, h2, h3⟩ := pushAll_zero ls (TruncatingBuffer.new 0) rfl
  have hfin : ((TruncatingBuffer.new 0).pushAll ls).1.finish = [] := by
    unfold TruncatingBuffer.finish
    rw [if_pos h0]
  refine ⟨?_, by simpa using h1, by simpa using h2, hfin⟩
  unfold runBuffer
  rw [h3, hfin, List.append_nil]

/-- C1 counterexample: at N = 1 and L = 2 the claimed shape
head(⌈N/2⌉) ++ marker ++ tail(⌊N/2⌋) would print the first line and then the
marker; the code prints the marker and then the most recent line, because the
source splits capacity as head_limit = ⌊N/2⌋ and tail_limit = ⌈N/2⌉. -/
theorem C1_claim_false_at_one :
    runBuffer 1 [lineA, lineB] = markerEmits 1 ++ [printLine lineB] ∧
    runBuffer 1 [lineA, lineB] ≠
      (List.map printLine [lineA]) ++ markerEmits 1 ++
        (List.map printLine ([] : List OutputLine)) := by
  constructor
  · rfl
  · decide

/-- C1 (amended): for every max_lines N > 0 and L > N lines, the printed
sequence equals the first ⌊N/2⌋ lines, then a single marker stating exactly
L - N omitted lines, then the most recent N - ⌊N/2⌋ = ⌈N/2⌉ lines in their
original relative order. -/
theorem C1_truncation (N : Nat) (ls : List OutputLine) (hN : 0 < N)
    (hL : N < ls.length) :
    runBuffer N ls =
      (ls.take (N / 2)).map printLine ++ markerEmits (ls.length - N) ++
        (ls.drop (ls.length - (N - N / 2))).map printLine := by
  obtain ⟨hm, hh, ht, hc, hhead, htail, hemit⟩ := pushAll_new_spec N hN ls
  have hmax : max (N / 2) (ls.length - (N - N / 2)) = ls.length - (N - N / 2) := by
    omega
  unfold runBuffer
  rw [hemit]
  unfold TruncatingBuffer.finish
  rw [hm, hc, hhead, htail, hmax, if_neg (by omega)]
  simp only [List.length_take, List.length_drop]
  have hskip : ls.length -
      (min (N / 2) ls.length + (ls.length - (ls.length - (N - N / 2)))) =
      ls.length - N := by
    omega
  rw [hskip, if_pos (by omega), List.append_assoc]

/-- C1 witness for the amended statement: N = 3, L = 5. -/
theorem C1_truncation_witness :
    runBuffer 3 [lineA, lineB, lineA, lineB, lineA] =
      (([lineA, lineB, lineA, lineB, lineA] : List OutputLine).take (3 / 2)).map
          printLine ++
        markerEmits (([lineA, lineB, lineA, lineB, lineA] : List OutputLine).length - 3) ++
        (([lineA, lineB, lineA, lineB, lineA] : List OutputLine).drop
            (([lineA, lineB, lineA, lineB, lineA] : List OutputLine).length -
              (3 - 3 / 2))).map printLine :=
  C1_truncation 3 [lineA, lineB, lineA, lineB, lineA] (by decide) (by decide)

/-- Running the client loop over a prefix of non-terminal responses followed by
`BuildComplete c` yields exit code `c`, whatever buffer and trace have
accumulated so far. -/
theorem clientLoop_complete_code (c : Int) (rest : List Response) :
    ∀ pre : List Response, (∀ r ∈ pre, r.isTerminal = false) →
      ∀ (b : TruncatingBuffer) (acc : List Emit),
        (clientLoop b acc (pre ++ Response.BuildComplete c :: rest)).1 = c := by
  intro pre
  induction pre with
  | nil => intro _ b acc; rfl
  | cons r pre ih =>
    intro hpre b acc
    have hr : r.isTerminal = false := hpre r (by simp)
    have hrest : ∀ x ∈ pre, x.isTerminal = false := fun x hx => hpre x (by simp [hx])
    cases r with
    | Output line e => simpa [clientLoop] using ih hrest _ _
    | Status i s => simpa [clientLoop] using ih hrest _ _
    | Stopping => simpa [clientLoop] using ih hrest _ _
    | BuildComplete code => simp [Response.isTerminal] at hr
    | Error m => simp [Response.isTerminal] at hr

/-- Running the client loop over a prefix of non-terminal responses followed by
`Error m` yields exit code 1. -/
theorem clientLoop_error_code (m : String) (rest : List Response) :
    ∀ pre : List Response, (∀ r ∈ pre, r.isTerminal = false) →
      ∀ (b : TruncatingBuffer) (acc : List Emit),
        (clientLoop b acc (pre ++ Response.Error m :: rest)).1 = 1 := by
  intro pre
  induction pre with
  | nil => intro _ b acc; rfl
  | cons r pre ih =>
    intro hpre b acc
    have hr : r.isTerminal = false := hpre r (by simp)
    have hrest : ∀ x ∈ pre, x.isTerminal = false := fun x hx => hpre x (by simp [hx])
    cases r with
    | Output line e => simpa [clientLoop] using ih hrest _ _
    | Status i s => simpa [clientLoop] using ih hrest _ _
    | Stopping => simpa [clientLoop] using ih hrest _ _
    | BuildComplete code => simp [Response.isTerminal] at hr
    | Error m2 => simp [Response.isTerminal] at hr

/-- C3: for every build request, the client terminates with exactly the exit
code carried in the BuildComplete response it receives — including negative
sentinel values — and terminates with exit code 1 when it instead receives an
Error response. -/
theorem C3_exit_codes (max_lines : Nat) (pre1 pre2 rest1 rest2 : List Response)
    (c : Int) (m : String)
    (h1 : ∀ r ∈ pre1, r.isTerminal = false)
    (h2 : ∀ r ∈ pre2, r.isTerminal = false) :
    (runBuildClient max_lines (pre1 ++ Response.BuildComplete c :: rest1)).1 = c ∧
    (runBuildClient max_lines (pre2 ++ Response.Error m :: rest2)).1 = 1 :=
  ⟨clientLoop_complete_code c rest1 pre1 h1 _ _,
    clientLoop_error_code m rest2 pre2 h2 _ _⟩

/-- C3 witness: a build reporting the negative sentinel -1, and an Error
response, each after one Output message. -/
theorem C3_exit_codes_witness :
    (runBuildClient 4
      ([Response.Output "x" false] ++ Response.BuildComplete (-1) :: [])).1 = -1 ∧
    (runBuildClient 4
      ([Response.Output "x" false] ++ Response.Error "boom" :: [])).1 = 1 :=
  C3_exit_codes 4 [Response.Output "x" false] [Response.Output "x" false] [] []
    (-1) "boom" (by decide) (by decide)

/-- A response stream with no terminal message drives the client loop to
end-of-stream: exit code 0, with the buffer's pushes and finish in the trace. -/
theorem clientLoop_no_terminal (rs : List Response)
    (h : ∀ r ∈ rs, r.isTerminal = false) :
    ∀ (b : TruncatingBuffer) (acc : List Emit),
      clientLoop b acc rs =
        (0, acc ++ (b.pushAll (outputLines rs)).2 ++
          (b.pushAll (outputLines rs)).1.finish) := by
  induction rs with
  | nil =>
    intro b acc
    simp [clientLoop, clientFinish, TruncatingBuffer.pushAll, outputLines]
  | cons r rs ih =>
    intro b acc
    have hr : r.isTerminal = false := h r (by simp)
    have hrest : ∀ x ∈ rs, x.isTerminal = false := fun x hx => h x (by simp [hx])
    cases r with
    | Output line e =>
      rw [show clientLoop b acc (Response.Output line e :: rs) =
          clientLoop (b.push { content := line, is_stderr := e }).1
            (acc ++ (b.push { content := line, is_stderr := e }).2) rs from rfl]
      rw [ih hrest]
      simp [outputLines, TruncatingBuffer.pushAll]
    | Status i s =>
      rw [show clientLoop b acc (Response.Status i s :: rs) =
          clientLoop b acc rs from rfl]
      rw [ih hrest]
      simp [outputLines]
    | Stopping =>
      rw [show clientLoop b acc (Response.Stopping :: rs) =
          clientLoop b acc rs from rfl]
      rw [ih hrest]
      simp [outputLines]
    | BuildComplete code => simp [Response.isTerminal] at hr
    | Error m => simp [Response.isTerminal] at hr

/-- C9: if the server closes the connection before the client has received any
BuildComplete or Error response, the client still finalizes the truncating
buffer (its trace is the full push-then-finish trace of the Output lines it
received) and terminates with exit code 0. -/
theorem C9_eof_reports_success (max_lines : Nat) (rs : List Response)
    (h : ∀ r ∈ rs, r.isTerminal = false) :
    runBuildClient max_lines rs = (0, runBuffer max_lines (outputLines rs)) := by
  unfold runBuildClient runBuffer
  rw [clientLoop_no_terminal rs h]
  simp

/-- C9 witness: the stream ends after one Output and one stray Stopping. -/
theorem C9_eof_reports_success_witness :
    runBuildClient 2 [Response.Output "hi" false, Response.Stopping] =
      (0, runBuffer 2 (outputLines [Response.Output "hi" false, Response.Stopping])) :=
  C9_eof_reports_success 2 [Response.Output "hi" false, Response.Stopping]
    (by decide)

/-- `splitWsChars` never returns the empty list when a word is in progress. -/
theorem splitWsChars_ne_nil (cs : List Char) :
    ∀ cur : List Char, ¬ cur = [] → splitWsChars cs cur ≠ [] := by
  induction cs with
  | nil =>
    intro cur h
    simp [splitWsChars, h]
  | cons c cs ih =>
    intro cur h
    by_cases hw : c.isWhitespace
    · simp [splitWsChars, hw, h]
    · simpa [splitWsChars, hw] using ih (c :: cur) (by simp)

/-- `split_whitespace` is empty exactly on all-whitespace (or empty) input. -/
theorem splitWsChars_nil_iff (cs : List Char) :
    splitWsChars cs [] = [] ↔ ∀ c ∈ cs, c.isWhitespace := by
  induction cs with
  | nil => simp [splitWsChars]
  | cons c cs ih =>
    by_cases hw : c.isWhitespace
    · simpa [splitWsChars, hw] using ih
    · have hne := splitWsChars_ne_nil cs [c] (by simp)
      simp only [splitWsChars, hw, if_false, if_neg]
      constructor
      · intro hcontra
        exact absurd hcontra hne
      · intro hall
        exact absurd (hall c (by simp)) (by simpa using hw)

/-- C4: for every Build request whose command is empty or consists only of
whitespace, the server emits exactly one Error response with message
"Empty command", spawns no process (the Bool component is false), and emits
no BuildComplete response — independently of any process behaviour. -/
theorem C4_empty_command (dir command : String) (pr : ProcessRun)
    (h : ∀ c ∈ command.toList, c.isWhitespace) :
    handle_build dir command pr = ([Response.Error "Empty command"], false) ∧
    ∀ code : Int, Response.BuildComplete code ∉ (handle_build dir command pr).1 := by
  have hsplit : splitWs command = [] := by
    unfold splitWs
    rw [(splitWsChars_nil_iff command.toList).mpr h]
    rfl
  have hb : handle_build dir command pr = ([Response.Error "Empty command"], false) := by
    unfold handle_build
    rw [if_pos hsplit]
  refine ⟨hb, ?_⟩
  intro code
  rw [hb]
  simp

/-- C4 witness: the all-whitespace command " \t ". -/
theorem C4_empty_command_witness :
    handle_build "C:/work" " \t " prNoOutput =
      ([Response.Error "Empty command"], false) ∧
    ∀ code : Int,
      Response.BuildComplete code ∉ (handle_build "C:/work" " \t " prNoOutput).1 :=
  C4_empty_command "C:/work" " \t " prNoOutput (by decide)

/-- C2 is violated by the code: with stdout already at end-of-stream while
stderr still holds a line, a schedule in which the select polls the stdout
branch first makes the streaming loop break immediately (`Ok(None) => break`
in the stdout arm, src/server.rs line 165): the pending stderr line is never
forwarded as an Output message, yet BuildComplete is still sent. -/
theorem C2_stderr_dropped :
    (handle_build "C:/work" "echo hi" c2Run).1 = [Response.BuildComplete 0] ∧
    Response.Output "late stderr line" true ∉
      (handle_build "C:/work" "echo hi" c2Run).1 := by
  constructor
  · rfl
  · decide

/-- C8: the `initialized` flag is false at creation, is true in every state in
which the accept loop can start (i.e. whenever startup succeeds, which
requires the configured init script, if any, to finish successfully), is never
changed by any connection handling (in particular never reset), and every
Status response reports the flag's current value together with the configured
init-script path (some path, or none when none was configured). -/
theorem C8_initialized_flag :
    initialServerState.initialized = false ∧
    (∀ (script : Option String) (ok : Bool) (st : ServerState),
      serverStartup script ok = some st → st.initialized = true) ∧
    (∀ (st : ServerState) (script : Option String) (req : Request) (pr : ProcessRun),
      ((handle_connection st script req pr).1).initialized = st.initialized) ∧
    (∀ (st : ServerState) (script : Option String) (pr : ProcessRun),
      (handle_connection st script Request.Status pr).2 =
        [Response.Status st.initialized script]) := by
  refine ⟨rfl, ?_, ?_, ?_⟩
  · intro script ok st h
    cases script with
    | none =>
      simp only [serverStartup, Option.some.injEq] at h
      rw [← h]
    | some p =>
      cases ok with
      | true =>
        simp only [serverStartup, if_true, Option.some.injEq] at h
        rw [← h]
      | false => simp [serverStartup] at h
  · intro st script req pr
    cases req <;> rfl
  · intro st script pr
    rfl

/-- C8 witness: successful startup with a configured script yields the
initialized state, and a Status request against the fresh state reports
initialized = false with the configured path. -/
theorem C8_initialized_flag_witness :
    ({ initialized := true, running := true } : ServerState).initialized = true ∧
    (handle_connection initialServerState (some "setup.ps1") Request.Status
        prNoOutput).2 =
      [Response.Status false (some "setup.ps1")] :=
  ⟨C8_initialized_flag.2.1 (some "setup.ps1") true
      { initialized := true, running := true } rfl,
    C8_initialized_flag.2.2.2 initialServerState (some "setup.ps1") prNoOutput⟩

/-- C7: every Response value, encoded to its wire form (serde's
externally-tagged JSON representation) and decoded back, is structurally equal
to the original, for all five variants and arbitrary field values. -/
theorem C7_encode_decode_roundtrip (r : Response) :
    decodeResponse (encodeResponse r) = some r := by
  cases r with
  | Output line e => rfl
  | BuildComplete c => rfl
  | Status i s => cases s <;> rfl
  | Stopping => rfl
  | Error m => rfl
